import Mathlib

/-!
Verification of the DukeBot tool layer (src/dukebot/tools.py).

The Python code is shallowly embedded: Python strings become Lean
`String`s (a structure over `List Char`), Python's `str.lower`,
`str.strip`, `str.replace(c, '')`, `split(' - ')` and the substring
test `a in b` are modelled by executable functions over the
underlying character lists (ASCII case conventions, as in the
reference data).  Network responses are passed explicitly as values
of `HttpResp`; `urllib.parse.quote(s, safe="")` is modelled byte by
byte over the UTF-8 encoding of the string.
-/

/-- Characters treated as whitespace by Python's `str.strip()` (ASCII part). -/
def pyWs (c : Char) : Bool :=
  c == ' ' || c == '\t' || c == '\n' || c == '\r' || c == '\x0b' || c == '\x0c'

/-- Model of `str.strip()` on the character list: drop whitespace from both ends. -/
def pyStripList (l : List Char) : List Char :=
  ((l.dropWhile pyWs).reverse.dropWhile pyWs).reverse

/-- Model of `str.strip()`. -/
def pyTrimStr (s : String) : String := ⟨pyStripList s.data⟩

/-- ASCII lower-casing of a single character (model of `str.lower` on the data). -/
def lowerChar (c : Char) : Char :=
  if 'A' ≤ c ∧ c ≤ 'Z' then Char.ofNat (c.toNat + 32) else c

/-- Model of `str.lower()`. -/
def pyLowerStr (s : String) : String := ⟨s.data.map lowerChar⟩

/-- Substring occurrence test on character lists: `hasSub p l` is `true`
iff `p` occurs contiguously inside `l` (models Python's `p in l`). -/
def hasSub (p : List Char) : List Char → Bool
  | [] => p.isEmpty
  | c :: rest => p.isPrefixOf (c :: rest) || hasSub p rest

/-- Model of Python's substring operator `needle in hay`. -/
def pyIn (needle hay : String) : Bool := hasSub needle.data hay.data

/-- Case-insensitive containment of `q` in `entry`: `query.lower() in entry.lower()`. -/
def containsCI (entry q : String) : Bool := pyIn (pyLowerStr q) (pyLowerStr entry)

/-- Model of `str.replace(c, '')` for a one-character pattern: remove all
occurrences of the character. -/
def removeChar (c : Char) (s : String) : String := ⟨s.data.filter (fun x => x != c)⟩

/-- Split a character list on the three-character separator `" - "`,
leftmost-first, exactly as Python's `split(' - ')` does. -/
def splitDash : List Char → List (List Char)
  | ' ' :: '-' :: ' ' :: rest => [] :: splitDash rest
  | c :: rest =>
    match splitDash rest with
    | [] => [[c]]
    | h :: t => (c :: h) :: t
  | [] => [[]]

/-- Model of `subject.split(' - ')`. -/
def pySplitDash (s : String) : List String := (splitDash s.data).map (fun l => ⟨l⟩)

/-- Result record of the three resolvers: the dictionary
`{"query": ..., "matches": ...}` that the Python code serializes. -/
structure SearchResult where
  query : String
  «matches» : List String
deriving Repr, DecidableEq

/-- The code-pass test of `search_subject_by_code`: the entry splits on
`" - "` into at least two parts and the query matches the code part,
either directly (case-insensitive substring) or after removing spaces
from the query and hyphens and spaces from the code. -/
def codeMatch (q s : String) : Bool :=
  match pySplitDash s with
  | p0 :: _ :: _ =>
    let code := pyTrimStr p0
    pyIn (pyLowerStr q) (pyLowerStr code) ||
      pyIn (removeChar ' ' (pyLowerStr q))
        (removeChar ' ' (removeChar '-' (pyLowerStr code)))
  | _ => false

/-- The description-pass test of `search_subject_by_code`: the entry splits
on `" - "` into at least two parts and the query is a case-insensitive
substring of the (stripped) description part. -/
def nameMatch (q s : String) : Bool :=
  match pySplitDash s with
  | _ :: p1 :: _ => pyIn (pyLowerStr q) (pyLowerStr (pyTrimStr p1))
  | _ => false

/-- Embedding of `search_subject_by_code` (tools.py, lines 180-216),
parameterized by the loaded `valid_subjects` list. -/
def searchSubjectByCode (validSubjects : List String) (query : String) : SearchResult :=
  let codeMatches := validSubjects.filter (fun s => codeMatch query s)
  let nameMatches := validSubjects.filter (fun s => nameMatch query s)
  let allMatches := codeMatches ++ nameMatches.filter (fun m => !(codeMatches.contains m))
  { query := query, «matches» := allMatches.take 5 }

/-- Embedding of `search_group_format` (tools.py, lines 218-233),
parameterized by the loaded `valid_groups` list. -/
def searchGroupFormat (validGroups : List String) (query : String) : SearchResult :=
  { query := query, «matches» := (validGroups.filter (fun g => containsCI g query)).take 5 }

/-- Embedding of `search_category_format` (tools.py, lines 235-250),
parameterized by the loaded `valid_categories` list. -/
def searchCategoryFormat (validCategories : List String) (query : String) : SearchResult :=
  { query := query,
    «matches» := (validCategories.filter (fun c => containsCI c query)).take 5 }

/-- Embedding of `load_options_from_file` (tools.py, lines 12-14), applied to
the physical lines of the file: `[line.strip() for line in file]`. -/
def loadOptionsFromFile : List String → List String
  | [] => []
  | line :: rest => pyTrimStr line :: loadOptionsFromFile rest

example : (searchGroupFormat ["Artificial Intelligence"] "intel").«matches» =
    ["Artificial Intelligence"] := by decide

example : codeMatch "ab" "A-B - Desc" = true := by decide

example : containsCI "A-B - Desc" "ab" = false := by decide

example : loadOptionsFromFile ["a", " ", "b"] = ["a", "", "b"] := by decide

/-- Decimal digit or uppercase hex digit character for a value below 16
(Python's `%X` formatting used by `urllib.parse.quote`). -/
def hexDig (n : Nat) : Char :=
  if n < 10 then Char.ofNat (48 + n) else Char.ofNat (55 + n)

/-- Bytes of a quoted byte: a byte in `urllib`'s always-safe set
(ASCII letters, digits, `_`, `.`, `-`, `~`) stays itself; any other
byte becomes `%XX` with uppercase hex, as `quote(s, safe="")` does. -/
def quoteByteNat (b : Nat) : List Char :=
  if (65 ≤ b ∧ b ≤ 90) ∨ (97 ≤ b ∧ b ≤ 122) ∨ (48 ≤ b ∧ b ≤ 57) ∨
      b = 95 ∨ b = 46 ∨ b = 45 ∨ b = 126 then
    [Char.ofNat b]
  else
    ['%', hexDig (b / 16), hexDig (b % 16)]

/-- UTF-8 encoding of a Unicode code point as a list of byte values. -/
def utf8Bytes (n : Nat) : List Nat :=
  if n < 128 then [n]
  else if n < 2048 then [192 + n / 64, 128 + n % 64]
  else if n < 65536 then [224 + n / 4096, 128 + (n / 64) % 64, 128 + n % 64]
  else [240 + n / 262144, 128 + (n / 4096) % 64, 128 + (n / 64) % 64, 128 + n % 64]

/-- Model of `urllib.parse.quote(s, safe="")`: percent-encode every UTF-8
byte of the string outside the always-safe set. -/
def pquote (s : String) : String :=
  ⟨(s.data.map (fun c => ((utf8Bytes c.toNat).map quoteByteNat).flatten)).flatten⟩

example : pquote "AI & ML" = "AI%20%26%20ML" := by decide

/-- Decimal digits of a natural number, most significant first (fuel-indexed
so that the recursion is structural and kernel-reducible). -/
def natDigits : Nat → Nat → List Char
  | 0, _ => []
  | fuel + 1, n =>
    if n < 10 then [Char.ofNat (48 + n)]
    else natDigits fuel (n / 10) ++ [Char.ofNat (48 + n % 10)]

/-- Decimal rendering of a natural number (model of Python's `f"{n}"`). -/
def natRepr (n : Nat) : String := ⟨natDigits (n + 1) n⟩

example : natRepr 45 = "45" := by decide

example : natRepr 404 = "404" := by decide

/-- The `feed_type` handling of `get_events_from_duke_api` (tools.py,
lines 59-64): outside `rss`, `js`, `ics`, `csv` the extra query parameter
`feed_type=simple` is appended. -/
def feedTypeParam (feedType : String) : String :=
  if feedType ∈ ["rss", "js", "ics", "csv"] then "" else "feed_type=simple"

/-- Group fragment of the events URL (tools.py, lines 66-79).  `none` models
the `IndexError` raised by `groups[0]` when the AND branch receives an
empty list; otherwise the fragment string is returned. -/
def groupUrl (filterMethodGroup : Bool) (groups : List String) : Option String :=
  if filterMethodGroup then
    if "All" ∈ groups then some ""
    else some (groups.foldl (fun acc g => acc ++ "&gfu[]=" ++ pquote g) "")
  else
    if "All" ∈ groups then some ""
    else
      match groups with
      | [] => none
      | g :: rest =>
        some (rest.foldl (fun acc g => acc ++ "&gf[]=" ++ pquote g) ("&gf[]=" ++ pquote g))

/-- Category fragment of the events URL (tools.py, lines 81-94). -/
def categoryUrl (filterMethodCategory : Bool) (categories : List String) : String :=
  if filterMethodCategory then
    if "All" ∈ categories then ""
    else categories.foldl (fun acc c => acc ++ "&cfu[]=" ++ pquote c) ""
  else
    if "All" ∈ categories then ""
    else categories.foldl (fun acc c => acc ++ "&cf[]=" ++ pquote c) ""

/-- The URL constructed by `get_events_from_duke_api` (tools.py, line 96);
`none` models the `IndexError` described at `groupUrl`. -/
def buildEventUrl (feedType : String) (futureDays : Nat) (groups categories : List String)
    (filterMethodGroup filterMethodCategory : Bool) : Option String :=
  (groupUrl filterMethodGroup groups).map (fun gu =>
    "https://calendar.duke.edu/events/index." ++ feedType ++ "?" ++
      categoryUrl filterMethodCategory categories ++ gu ++
      "&future_days=" ++ natRepr futureDays ++ "&" ++ feedTypeParam feedType)

example : buildEventUrl "json" 45 ["All"] ["All"] true true =
    some "https://calendar.duke.edu/events/index.json?&future_days=45&feed_type=simple" := by
  decide

example : buildEventUrl "json" 45 ["A", "B"] ["All"] true true =
    some
      "https://calendar.duke.edu/events/index.json?&gfu[]=A&gfu[]=B&future_days=45&feed_type=simple" := by
  decide

/-- An HTTP response as the clients see it: a status code and a body. -/
structure HttpResp where
  status : Nat
  text : String

/-- Number of occurrences of the pattern `p` at any position of `l`
(used to count emitted query parameters). -/
def countSub (p : List Char) : List Char → Nat
  | [] => 0
  | c :: rest => (if p.isPrefixOf (c :: rest) then 1 else 0) + countSub p rest

/-- Embedding of `get_events_from_duke_api` (tools.py, lines 27-103): the
response is passed explicitly; `none` models the `IndexError` raised
during URL construction for an empty AND-filtered group list. -/
def getEventsFromDukeApi (feedType : String) (futureDays : Nat)
    (groups categories : List String) (filterMethodGroup filterMethodCategory : Bool)
    (resp : HttpResp) : Option String :=
  (buildEventUrl feedType futureDays groups categories
      filterMethodGroup filterMethodCategory).map (fun _ =>
    if resp.status = 200 then resp.text
    else "Failed to fetch data: " ++ natRepr resp.status)

/-- JSON values, as produced by Python's `json.loads` on the curriculum
response body (numbers restricted to integers, which is all the claims
need). -/
inductive Json where
  | null : Json
  | bool : Bool → Json
  | num : Int → Json
  | str : String → Json
  | arr : List Json → Json
  | obj : List (String × Json) → Json

/-- Escape of one character inside a JSON string literal, following
`json.dumps` with its default `ensure_ascii=True`. -/
def escChar (c : Char) : List Char :=
  if c = '"' then ['\\', '"']
  else if c = '\\' then ['\\', '\\']
  else if c = '\n' then ['\\', 'n']
  else if c = '\t' then ['\\', 't']
  else if c = '\r' then ['\\', 'r']
  else if c = '\x08' then ['\\', 'b']
  else if c = '\x0c' then ['\\', 'f']
  else if c.toNat < 32 then
    ['\\', 'u', '0', '0', hexDig (c.toNat / 16), hexDig (c.toNat % 16)]
  else if c.toNat < 127 then [c]
  else if c.toNat < 65536 then
    ['\\', 'u', hexDig (c.toNat / 4096), hexDig ((c.toNat / 256) % 16),
      hexDig ((c.toNat / 16) % 16), hexDig (c.toNat % 16)]
  else
    let m := c.toNat - 65536
    let hi := 55296 + m / 1024
    let lo := 56320 + m % 1024
    ['\\', 'u', hexDig (hi / 4096), hexDig ((hi / 256) % 16),
      hexDig ((hi / 16) % 16), hexDig (hi % 16)] ++
    ['\\', 'u', hexDig (lo / 4096), hexDig ((lo / 256) % 16),
      hexDig ((lo / 16) % 16), hexDig (lo % 16)]

/-- JSON serialization of a string literal. -/
def dumpsStr (s : String) : String :=
  ⟨'"' :: (s.data.map escChar).flatten ++ ['"']⟩

/-- JSON rendering of an integer. -/
def dumpsInt (n : Int) : String :=
  if n < 0 then ⟨'-' :: (natRepr n.natAbs).data⟩ else natRepr n.natAbs

mutual

/-- Serialization of a JSON value with `json.dumps`'s default separators
(`", "` between items and `": "` after keys). -/
def dumps : Json → String
  | Json.null => "null"
  | Json.bool true => "true"
  | Json.bool false => "false"
  | Json.num n => dumpsInt n
  | Json.str s => dumpsStr s
  | Json.arr xs => "[" ++ dumpsList xs ++ "]"
  | Json.obj kvs => "\x7b" ++ dumpsObj kvs ++ "\x7d"

/-- Comma-separated serialization of the items of a JSON array. -/
def dumpsList : List Json → String
  | [] => ""
  | [x] => dumps x
  | x :: y :: rest => dumps x ++ ", " ++ dumpsList (y :: rest)

/-- Comma-separated serialization of the key-value pairs of a JSON object. -/
def dumpsObj : List (String × Json) → String
  | [] => ""
  | [(k, v)] => dumpsStr k ++ ": " ++ dumps v
  | (k, v) :: p :: rest => dumpsStr k ++ ": " ++ dumps v ++ ", " ++ dumpsObj (p :: rest)

end

/-- The note attached by `get_curriculum_with_subject_from_duke_api` when it
truncates a course list of length `n` (tools.py, line 127). -/
def courseNote (n : Nat) : String :=
  "Showing 5 out of " ++ natRepr n ++ " courses. Use more specific queries to refine results."

/-- Embedding of `get_curriculum_with_subject_from_duke_api` (tools.py,
lines 106-135).  The response is passed explicitly, and `parsed` is the
outcome of `json.loads(response.text)`: `none` models a raised
`json.JSONDecodeError`, `some d` a successful parse with value `d`. -/
def getCurriculumWithSubjectFromDukeApi (subject : String) (parsed : Option Json)
    (resp : HttpResp) : String :=
  let _url := "https://streamer.oit.duke.edu/curriculum/courses/subject/" ++
    pquote subject ++ "?access_token=19d3636f71c152dd13840724a8a48074"
  if resp.status = 200 then
    match parsed with
    | none => "Error: Could not parse API response"
    | some data =>
      match data with
      | Json.arr xs =>
        if xs.length > 5 then
          dumps (Json.obj [("courses", Json.arr (xs.take 5)),
            ("note", Json.str (courseNote xs.length))])
        else resp.text
      | _ => resp.text
  else "Failed to fetch data: " ++ natRepr resp.status

/-- Embedding of `get_detailed_course_information_from_duke_api` (tools.py,
lines 137-155). -/
def getDetailedCourseInformationFromDukeApi (courseId courseOfferNumber : String)
    (resp : HttpResp) : String :=
  let _url := "https://streamer.oit.duke.edu/curriculum/courses/crse_id/" ++ courseId ++
    "/crse_offer_nbr/" ++ courseOfferNumber ++ "?access_token=19d3636f71c152dd13840724a8a48074"
  if resp.status = 200 then resp.text
  else "Failed to fetch data: " ++ natRepr resp.status

/-- Embedding of `get_people_information_from_duke_api` (tools.py,
lines 157-177). -/
def getPeopleInformationFromDukeApi (name : String) (resp : HttpResp) : String :=
  let _url := "https://streamer.oit.duke.edu/ldap/people?q=" ++ pquote name ++
    "&access_token=19d3636f71c152dd13840724a8a48074"
  if resp.status = 200 then resp.text
  else "Failed to fetch data: " ++ natRepr resp.status

/-- URL construction fails (the `groups[0]` `IndexError`) exactly for the
AND-filter flag combined with an empty group list. -/
lemma buildEventUrl_none_iff (ft : String) (fd : Nat) (groups cats : List String)
    (fmg fmc : Bool) :
    buildEventUrl ft fd groups cats fmg fmc = none ↔ fmg = false ∧ groups = [] := by
  unfold buildEventUrl
  cases fmg with
  | true =>
    by_cases hAll : "All" ∈ groups <;> simp [groupUrl, hAll]
  | false =>
    by_cases hAll : "All" ∈ groups
    · have hne : groups ≠ [] := by
        intro h
        rw [h] at hAll
        simp at hAll
      simp [groupUrl, hAll, hne]
    · cases groups with
      | nil => simp [groupUrl, hAll]
      | cons g rest => simp [groupUrl, hAll]

/-- The empty pattern occurs in every list. -/
lemma hasSub_nil (l : List Char) : hasSub [] l = true := by
  induction l with
  | nil => simp [hasSub, List.isEmpty]
  | cons c rest ih => simp [hasSub, List.isPrefixOf]

/-- A pattern occurs in a list that embeds it contiguously. -/
lemma isPrefixOf_append_self (p b : List Char) : p.isPrefixOf (p ++ b) = true := by
  induction p with
  | nil => simp [List.isPrefixOf]
  | cons c rest ih => simp [List.isPrefixOf, ih]

/-- A pattern occurs in any list of the form `a ++ p ++ b`. -/
lemma hasSub_of_surround (p a b : List Char) : hasSub p (a ++ (p ++ b)) = true := by
  induction a with
  | nil =>
    cases p with
    | nil => simp [hasSub_nil]
    | cons c rest => simp [hasSub, isPrefixOf_append_self]
  | cons c arest ih => simp [hasSub, ih]

/-- C10: with the AND flag (`filter_method_group = False`) and an empty
group list the URL construction indexes `groups[0]` and fails (modelled by
`none`, the raised `IndexError`); every other combination of the facet
lists and flags constructs a URL.  Stated as: construction fails exactly
for that one combination. -/
theorem c10_empty_groups_and_flag (ft : String) (fd : Nat) (groups cats : List String)
    (fmg fmc : Bool) :
    buildEventUrl ft fd groups cats fmg fmc = none ↔ fmg = false ∧ groups = [] :=
  buildEventUrl_none_iff ft fd groups cats fmg fmc

/-- C9: with the reference lists replaced by empty sequences (the
file-not-found fallback), every resolver call returns an empty `matches`
field instead of failing. -/
theorem c9_resolvers_degrade (q : String) :
    (searchSubjectByCode [] q).«matches» = [] ∧
    (searchGroupFormat [] q).«matches» = [] ∧
    (searchCategoryFormat [] q).«matches» = [] :=
  ⟨rfl, rfl, rfl⟩

/-- C3 fails on the code: `load_options_from_file` keeps blank (or
whitespace-only) lines as empty strings, so on the physical lines
`["a", " ", "b"]` its result is not the non-empty trimmed-line sequence
`["a", "b"]` that the claim demands. -/
theorem c3_counterexample :
    ¬ (loadOptionsFromFile ["a", " ", "b"] =
        List.filter (fun s => !(s == "")) (List.map pyTrimStr ["a", " ", "b"])) := by
  decide

/-- C3 amended: `load_options_from_file` returns the whitespace-trimmed
lines of the file, one per physical line and in file order; blank or
whitespace-only lines are kept as empty strings rather than dropped, and
the non-empty entries of the result are exactly the non-empty trimmed
lines in order. -/
theorem c3_amended_trimmed_lines (lines : List String) :
    loadOptionsFromFile lines = lines.map pyTrimStr ∧
    (loadOptionsFromFile lines).length = lines.length ∧
    (loadOptionsFromFile lines).filter (fun s => !(s == "")) =
      (lines.map pyTrimStr).filter (fun s => !(s == "")) := by
  have h : loadOptionsFromFile lines = lines.map pyTrimStr := by
    induction lines with
    | nil => rfl
    | cons l rest ih => simp [loadOptionsFromFile, ih]
  exact ⟨h, by rw [h]; simp, by rw [h]⟩

/-- C6: with the OR flag (`filter_method_group = True`) and
`groups = ["A", "B"]` (defaults elsewhere) the URL contains exactly two
`&gfu[]=` parameters and no `&gf[]=` parameter; with the AND flag it
contains exactly two `&gf[]=` parameters and no `&gfu[]=` parameter. -/
theorem c6_group_param_counts :
    ((buildEventUrl "json" 45 ["A", "B"] ["All"] true true).map
        (fun u => (countSub "&gfu[]=".data u.data, countSub "&gf[]=".data u.data)) =
      some (2, 0)) ∧
    ((buildEventUrl "json" 45 ["A", "B"] ["All"] false true).map
        (fun u => (countSub "&gfu[]=".data u.data, countSub "&gf[]=".data u.data)) =
      some (0, 2)) := by
  decide

/-- C7: every client maps a non-200 response to exactly the string
`"Failed to fetch data: <status>"` (for the events client, whenever the
URL construction itself does not fail, cf. C10). -/
theorem c7_non200_failure_string (resp : HttpResp) (hs : resp.status ≠ 200) :
    (∀ ft fd groups cats fmg fmc, (fmg = true ∨ groups ≠ []) →
      getEventsFromDukeApi ft fd groups cats fmg fmc resp =
        some ("Failed to fetch data: " ++ natRepr resp.status)) ∧
    (∀ subject parsed, getCurriculumWithSubjectFromDukeApi subject parsed resp =
      "Failed to fetch data: " ++ natRepr resp.status) ∧
    (∀ cid con, getDetailedCourseInformationFromDukeApi cid con resp =
      "Failed to fetch data: " ++ natRepr resp.status) ∧
    (∀ name, getPeopleInformationFromDukeApi name resp =
      "Failed to fetch data: " ++ natRepr resp.status) := by
  refine ⟨?_, ?_, ?_, ?_⟩
  · intro ft fd groups cats fmg fmc hok
    have hne : ¬ (fmg = false ∧ groups = []) := by
      rcases hok with h | h
      · intro hc
        rw [h] at hc
        exact Bool.noConfusion hc.1
      · intro hc
        exact h hc.2
    have : buildEventUrl ft fd groups cats fmg fmc ≠ none := by
      intro h
      exact hne ((buildEventUrl_none_iff ft fd groups cats fmg fmc).mp h)
    rcases Option.ne_none_iff_exists'.mp this with ⟨u, hu⟩
    simp [getEventsFromDukeApi, hu, hs]
  · intro subject parsed
    simp [getCurriculumWithSubjectFromDukeApi, hs]
  · intro cid con
    simp [getDetailedCourseInformationFromDukeApi, hs]
  · intro name
    simp [getPeopleInformationFromDukeApi, hs]

/-- Character data of an appended string is the appended character data. -/
lemma strData_append (a b : String) : (a ++ b).data = a.data ++ b.data := by
  cases a
  cases b
  rfl

/-- C8: on a 200 response, the curriculum client wraps a parsed JSON list
longer than 5 as `{"courses": <first 5>, "note": <note mentioning N>}`,
maps a parse failure to the fixed error string, and returns the raw body
unchanged in every other case. -/
theorem c8_curriculum_postprocess (subject : String) (resp : HttpResp)
    (parsed : Option Json) (h200 : resp.status = 200) :
    (∀ xs, parsed = some (Json.arr xs) → 5 < xs.length →
      getCurriculumWithSubjectFromDukeApi subject parsed resp =
        dumps (Json.obj [("courses", Json.arr (xs.take 5)),
          ("note", Json.str (courseNote xs.length))]) ∧
      hasSub (natRepr xs.length).data (courseNote xs.length).data = true) ∧
    (parsed = none →
      getCurriculumWithSubjectFromDukeApi subject parsed resp =
        "Error: Could not parse API response") ∧
    (∀ d, parsed = some d → (∀ xs, d = Json.arr xs → xs.length ≤ 5) →
      getCurriculumWithSubjectFromDukeApi subject parsed resp = resp.text) := by
  refine ⟨?_, ?_, ?_⟩
  · intro xs hp hlen
    subst hp
    refine ⟨by simp [getCurriculumWithSubjectFromDukeApi, h200, hlen], ?_⟩
    have hdata : (courseNote xs.length).data =
        "Showing 5 out of ".data ++ ((natRepr xs.length).data ++
          " courses. Use more specific queries to refine results.".data) := by
      rw [courseNote, strData_append, strData_append, List.append_assoc]
    rw [hdata]
    exact hasSub_of_surround _ _ _
  · intro hp
    subst hp
    simp [getCurriculumWithSubjectFromDukeApi, h200]
  · intro d hp hle
    subst hp
    cases d with
    | arr xs =>
      have hlen : ¬ (xs.length > 5) := by
        have := hle xs rfl
        omega
      simp [getCurriculumWithSubjectFromDukeApi, h200, hlen]
    | null => simp [getCurriculumWithSubjectFromDukeApi, h200]
    | bool b => simp [getCurriculumWithSubjectFromDukeApi, h200]
    | num n => simp [getCurriculumWithSubjectFromDukeApi, h200]
    | str s => simp [getCurriculumWithSubjectFromDukeApi, h200]
    | obj kvs => simp [getCurriculumWithSubjectFromDukeApi, h200]

/-- C8 witness: a 7-element parsed list is truncated and wrapped with a
note mentioning 7; a parse failure and a short list behave as claimed. -/
theorem c8_curriculum_postprocess_witness :
    (getCurriculumWithSubjectFromDukeApi "AIPI"
        (some (Json.arr [Json.num 1, Json.num 2, Json.num 3, Json.num 4,
          Json.num 5, Json.num 6, Json.num 7])) ⟨200, "[1, 2, 3, 4, 5, 6, 7]"⟩ =
      dumps (Json.obj [("courses", Json.arr ([Json.num 1, Json.num 2, Json.num 3,
          Json.num 4, Json.num 5, Json.num 6, Json.num 7].take 5)),
        ("note", Json.str (courseNote ([Json.num 1, Json.num 2, Json.num 3,
          Json.num 4, Json.num 5, Json.num 6, Json.num 7] : List Json).length))]) ∧
      hasSub (natRepr ([Json.num 1, Json.num 2, Json.num 3, Json.num 4,
          Json.num 5, Json.num 6, Json.num 7] : List Json).length).data
        (courseNote ([Json.num 1, Json.num 2, Json.num 3, Json.num 4,
          Json.num 5, Json.num 6, Json.num 7] : List Json).length).data = true) ∧
    getCurriculumWithSubjectFromDukeApi "AIPI" none ⟨200, "not json"⟩ =
      "Error: Could not parse API response" ∧
    getCurriculumWithSubjectFromDukeApi "AIPI" (some (Json.arr [Json.num 1]))
      ⟨200, "[1]"⟩ = "[1]" := by
  refine ⟨?_, ?_, ?_⟩
  · exact (c8_curriculum_postprocess "AIPI" ⟨200, "[1, 2, 3, 4, 5, 6, 7]"⟩
      (some (Json.arr [Json.num 1, Json.num 2, Json.num 3, Json.num 4,
        Json.num 5, Json.num 6, Json.num 7])) rfl).1 _ rfl (by decide)
  · exact (c8_curriculum_postprocess "AIPI" ⟨200, "not json"⟩ none rfl).2.1 rfl
  · exact (c8_curriculum_postprocess "AIPI" ⟨200, "[1]"⟩
      (some (Json.arr [Json.num 1])) rfl).2.2 (Json.arr [Json.num 1]) rfl
      (by
        intro xs h
        cases h
        decide)

/-- C7 witness: a 404 response at concrete inputs. -/
theorem c7_non200_failure_string_witness :
    getEventsFromDukeApi "json" 45 ["All"] ["All"] true true ⟨404, "nope"⟩ =
      some ("Failed to fetch data: " ++ natRepr 404) ∧
    getCurriculumWithSubjectFromDukeApi "AIPI" none ⟨404, "nope"⟩ =
      "Failed to fetch data: " ++ natRepr 404 ∧
    getDetailedCourseInformationFromDukeApi "029248" "1" ⟨404, "nope"⟩ =
      "Failed to fetch data: " ++ natRepr 404 ∧
    getPeopleInformationFromDukeApi "John Doe" ⟨404, "nope"⟩ =
      "Failed to fetch data: " ++ natRepr 404 := by
  have h := c7_non200_failure_string ⟨404, "nope"⟩ (by decide)
  exact ⟨h.1 "json" 45 ["All"] ["All"] true true (Or.inl rfl),
    h.2.1 "AIPI" none, h.2.2.1 "029248" "1", h.2.2.2 "John Doe"⟩

/-- Elements of the code pass of `search_subject_by_code` satisfy its
code-pass predicate. -/
lemma mem_codePass {subs : List String} {q x : String}
    (hx : x ∈ subs.filter (fun s => codeMatch q s)) : codeMatch q x = true :=
  (List.mem_filter.mp hx).2

/-- Elements of the de-duplicated description pass of
`search_subject_by_code` fail the code-pass predicate. -/
lemma mem_namePass_not_code {subs : List String} {q x : String}
    (hx : x ∈ (subs.filter (fun s => nameMatch q s)).filter
      (fun m => !((subs.filter (fun s => codeMatch q s)).contains m))) :
    codeMatch q x = false := by
  rcases List.mem_filter.mp hx with ⟨hxnm, hxc⟩
  rcases List.mem_filter.mp hxnm with ⟨hxs, _⟩
  by_contra h
  have hcode : codeMatch q x = true := by
    cases hcm : codeMatch q x
    · exact absurd hcm h
    · rfl
  have hmem : x ∈ subs.filter (fun s => codeMatch q s) :=
    List.mem_filter.mpr ⟨hxs, hcode⟩
  have h1 : List.elem x (subs.filter (fun s => codeMatch q s)) = true :=
    List.elem_iff.mpr hmem
  have h2 : (subs.filter (fun s => codeMatch q s)).contains x = true := h1
  rw [h2] at hxc
  exact Bool.noConfusion hxc

/-- C1 fails on the code: the query `"ab"` is contained (case-insensitively)
in no entry of the subject list `["A-B - Desc"]`, yet
`search_subject_by_code` returns a non-empty match list for it, through its
hyphen/space-insensitive code comparison. -/
theorem c1_counterexample :
    (∀ e ∈ (["A-B - Desc"] : List String), containsCI e "ab" = false) ∧
    (searchSubjectByCode ["A-B - Desc"] "ab").«matches» ≠ [] := by
  decide

/-- C1 amended: for `search_group_format` and `search_category_format`, an
entry containing the query case-insensitively is among the matches provided
at most five entries of the list contain the query, and a query contained
in no entry yields an empty match list.  For `search_subject_by_code`,
matching is judged on the `" - "`-split code and description parts (with a
hyphen/space-insensitive variant for the code), not on the whole entry: the
match list is empty exactly when no entry passes either of those tests. -/
theorem c1_amended_resolver_containment (gs cs subs : List String) (q : String) :
    (∀ e, e ∈ gs → containsCI e q = true →
      (gs.filter (fun g => containsCI g q)).length ≤ 5 →
      e ∈ (searchGroupFormat gs q).«matches») ∧
    (∀ e, e ∈ cs → containsCI e q = true →
      (cs.filter (fun c => containsCI c q)).length ≤ 5 →
      e ∈ (searchCategoryFormat cs q).«matches») ∧
    ((∀ g ∈ gs, containsCI g q = false) → (searchGroupFormat gs q).«matches» = []) ∧
    ((∀ c ∈ cs, containsCI c q = false) → (searchCategoryFormat cs q).«matches» = []) ∧
    ((∀ s ∈ subs, codeMatch q s = false ∧ nameMatch q s = false) →
      (searchSubjectByCode subs q).«matches» = []) ∧
    ((∃ s ∈ subs, codeMatch q s = true ∨ nameMatch q s = true) →
      (searchSubjectByCode subs q).«matches» ≠ []) := by
  refine ⟨?_, ?_, ?_, ?_, ?_, ?_⟩
  · intro e he hc hlen
    show e ∈ (gs.filter (fun g => containsCI g q)).take 5
    rw [List.take_of_length_le hlen]
    exact List.mem_filter.mpr ⟨he, hc⟩
  · intro e he hc hlen
    show e ∈ (cs.filter (fun c => containsCI c q)).take 5
    rw [List.take_of_length_le hlen]
    exact List.mem_filter.mpr ⟨he, hc⟩
  · intro h
    have : gs.filter (fun g => containsCI g q) = [] :=
      List.filter_eq_nil_iff.mpr (fun a ha => by simp [h a ha])
    show (gs.filter (fun g => containsCI g q)).take 5 = []
    simp [this]
  · intro h
    have : cs.filter (fun c => containsCI c q) = [] :=
      List.filter_eq_nil_iff.mpr (fun a ha => by simp [h a ha])
    show (cs.filter (fun c => containsCI c q)).take 5 = []
    simp [this]
  · intro h
    have hc : subs.filter (fun s => codeMatch q s) = [] :=
      List.filter_eq_nil_iff.mpr (fun a ha => by simp [(h a ha).1])
    have hn : subs.filter (fun s => nameMatch q s) = [] :=
      List.filter_eq_nil_iff.mpr (fun a ha => by simp [(h a ha).2])
    simp [searchSubjectByCode, hc, hn]
  · rintro ⟨s, hs, hcase⟩ hmat
    have hsplit : subs.filter (fun s => codeMatch q s) = [] ∧
        (subs.filter (fun s => nameMatch q s)).filter
          (fun m => !((subs.filter (fun s => codeMatch q s)).contains m)) = [] := by
      have htake : (subs.filter (fun s => codeMatch q s) ++
          (subs.filter (fun s => nameMatch q s)).filter
            (fun m => !((subs.filter (fun s => codeMatch q s)).contains m))).take 5 = [] := hmat
      rcases List.take_eq_nil_iff.mp htake with h5 | happ
      · exact absurd h5 (by decide)
      · exact List.append_eq_nil.mp happ
    rcases hcase with hcode | hname
    · exact List.ne_nil_of_mem
        (List.mem_filter.mpr ⟨hs, hcode⟩) hsplit.1
    · by_cases hcm : codeMatch q s = true
      · exact List.ne_nil_of_mem (List.mem_filter.mpr ⟨hs, hcm⟩) hsplit.1
      · have hnotmem : s ∉ subs.filter (fun s => codeMatch q s) := by
          intro hmem
          exact hcm (List.mem_filter.mp hmem).2
        have hsmem : s ∈ (subs.filter (fun s => nameMatch q s)).filter
            (fun m => !((subs.filter (fun s => codeMatch q s)).contains m)) := by
          refine List.mem_filter.mpr ⟨List.mem_filter.mpr ⟨hs, hname⟩, ?_⟩
          cases hcon : (subs.filter (fun s => codeMatch q s)).contains s
          · rfl
          · exact absurd (List.elem_iff.mp hcon) hnotmem
        exact List.ne_nil_of_mem hsmem hsplit.2

/-- C1 witness: concrete resolver calls realizing every hypothesis of the
amended statement. -/
theorem c1_amended_resolver_containment_witness :
    "Duke X" ∈ (searchGroupFormat ["Duke X"] "duke").«matches» ∧
    "Duke X" ∈ (searchCategoryFormat ["Duke X"] "duke").«matches» ∧
    (searchGroupFormat ["Duke X"] "zzz").«matches» = [] ∧
    (searchCategoryFormat ["Duke X"] "zzz").«matches» = [] ∧
    (searchSubjectByCode ["AB - Duke X"] "zzz").«matches» = [] ∧
    (searchSubjectByCode ["AB - Duke X"] "duke").«matches» ≠ [] := by
  have h1 := c1_amended_resolver_containment ["Duke X"] ["Duke X"] ["AB - Duke X"] "duke"
  have h2 := c1_amended_resolver_containment ["Duke X"] ["Duke X"] ["AB - Duke X"] "zzz"
  exact ⟨h1.1 "Duke X" (by decide) (by decide) (by decide),
    h1.2.1 "Duke X" (by decide) (by decide) (by decide),
    h2.2.2.1 (by decide), h2.2.2.2.1 (by decide),
    h2.2.2.2.2.1 (by decide),
    h1.2.2.2.2.2 ⟨"AB - Duke X", by decide, Or.inr (by decide)⟩⟩

/-- C2 fails on the code: `search_subject_by_code` returns the entry
`"A-B - Desc"` for the query `"ab"` although the query is not a
case-insensitive substring of that entry (the hyphen/space-insensitive
code comparison matched). -/
theorem c2_counterexample :
    "A-B - Desc" ∈ (searchSubjectByCode ["A-B - Desc"] "ab").«matches» ∧
    containsCI "A-B - Desc" "ab" = false := by
  decide

/-- C2 amended: every match of `search_group_format` and
`search_category_format` contains the query as a case-insensitive
substring; every match of `search_subject_by_code` passes its code test
(direct, or hyphen/space-insensitive, containment in the code part) or its
description test (containment in the description part). -/
theorem c2_amended_match_soundness (gs cs subs : List String) (q m : String) :
    (m ∈ (searchGroupFormat gs q).«matches» → containsCI m q = true) ∧
    (m ∈ (searchCategoryFormat cs q).«matches» → containsCI m q = true) ∧
    (m ∈ (searchSubjectByCode subs q).«matches» →
      codeMatch q m = true ∨ nameMatch q m = true) := by
  refine ⟨?_, ?_, ?_⟩
  · intro hm
    have hmem : m ∈ gs.filter (fun g => containsCI g q) :=
      (List.take_sublist 5 _).subset hm
    exact (List.mem_filter.mp hmem).2
  · intro hm
    have hmem : m ∈ cs.filter (fun c => containsCI c q) :=
      (List.take_sublist 5 _).subset hm
    exact (List.mem_filter.mp hmem).2
  · intro hm
    have hmem : m ∈ subs.filter (fun s => codeMatch q s) ++
        (subs.filter (fun s => nameMatch q s)).filter
          (fun m => !((subs.filter (fun s => codeMatch q s)).contains m)) :=
      (List.take_sublist 5 _).subset hm
    rcases List.mem_append.mp hmem with hcm | hnm
    · exact Or.inl (mem_codePass hcm)
    · exact Or.inr (List.mem_filter.mp (List.mem_filter.mp hnm).1).2

/-- C2 witness: soundness of the three resolvers at concrete matches. -/
theorem c2_amended_match_soundness_witness :
    containsCI "Duke X" "duke" = true ∧
    (codeMatch "duke" "AB - Duke X" = true ∨ nameMatch "duke" "AB - Duke X" = true) := by
  have h := c2_amended_match_soundness ["Duke X"] ["Duke X"] ["AB - Duke X"] "duke" "Duke X"
  have h2 := c2_amended_match_soundness ["Duke X"] ["Duke X"] ["AB - Duke X"] "duke" "AB - Duke X"
  exact ⟨h.1 (by decide), h2.2.2 (by decide)⟩

/-- The match list of `search_subject_by_code` is the 5-truncation of the
code pass followed by the de-duplicated description pass. -/
lemma subject_matches_eq (subs : List String) (q : String) :
    (searchSubjectByCode subs q).«matches» =
      (subs.filter (fun s => codeMatch q s) ++
        (subs.filter (fun s => nameMatch q s)).filter
          (fun m => !((subs.filter (fun s => codeMatch q s)).contains m))).take 5 := rfl

/-- C4: all three resolvers return at most five matches; for
`search_subject_by_code` the code-pass matches precede the
description-pass matches, the reference-list order is preserved within
each pass, and an entry matching both passes is not repeated. -/
theorem c4_limit_order_dedup (subs gs cs : List String) (q : String) :
    (searchSubjectByCode subs q).«matches».length ≤ 5 ∧
    (searchGroupFormat gs q).«matches».length ≤ 5 ∧
    (searchCategoryFormat cs q).«matches».length ≤ 5 ∧
    (∀ i j x y, i < j →
      (searchSubjectByCode subs q).«matches».get? i = some x →
      (searchSubjectByCode subs q).«matches».get? j = some y →
      codeMatch q y = true → codeMatch q x = true) ∧
    List.Sublist ((searchSubjectByCode subs q).«matches».filter (fun m => codeMatch q m))
      (subs.filter (fun s => codeMatch q s)) ∧
    List.Sublist ((searchSubjectByCode subs q).«matches».filter (fun m => !(codeMatch q m)))
      (subs.filter (fun s => nameMatch q s)) ∧
    (∀ x, (searchSubjectByCode subs q).«matches».count x ≤
      max ((subs.filter (fun s => codeMatch q s)).count x)
        ((subs.filter (fun s => nameMatch q s)).count x)) := by
  have hsub : List.Sublist (searchSubjectByCode subs q).«matches»
      (subs.filter (fun s => codeMatch q s) ++
        (subs.filter (fun s => nameMatch q s)).filter
          (fun m => !((subs.filter (fun s => codeMatch q s)).contains m))) := by
    rw [subject_matches_eq]
    exact List.take_sublist 5 _
  refine ⟨?_, ?_, ?_, ?_, ?_, ?_, ?_⟩
  · rw [subject_matches_eq, List.length_take]
    exact min_le_left 5 _
  · show ((gs.filter (fun g => containsCI g q)).take 5).length ≤ 5
    rw [List.length_take]
    exact min_le_left 5 _
  · show ((cs.filter (fun c => containsCI c q)).take 5).length ≤ 5
    rw [List.length_take]
    exact min_le_left 5 _
  · intro i j x y hij hi hj hcy
    have hjlen : j < (searchSubjectByCode subs q).«matches».length :=
      (List.get?_eq_some.mp hj).1
    have hjtake : j < 5 := by
      have := hjlen
      rw [subject_matches_eq, List.length_take] at this
      omega
    have hitake : i < 5 := Nat.lt_trans hij hjtake
    rw [subject_matches_eq, List.get?_take hitake] at hi
    rw [subject_matches_eq, List.get?_take hjtake] at hj
    by_cases hjcm : j < (subs.filter (fun s => codeMatch q s)).length
    · have hicm : i < (subs.filter (fun s => codeMatch q s)).length :=
        Nat.lt_trans hij hjcm
      rw [List.get?_append hicm] at hi
      exact mem_codePass (List.get?_mem hi)
    · have hge : (subs.filter (fun s => codeMatch q s)).length ≤ j := Nat.le_of_not_lt hjcm
      rw [List.get?_append_right hge] at hj
      have : codeMatch q y = false := mem_namePass_not_code (List.get?_mem hj)
      rw [hcy] at this
      exact Bool.noConfusion this
  · have := hsub.filter (fun m => codeMatch q m)
    rw [List.filter_append] at this
    have hcmfull : (subs.filter (fun s => codeMatch q s)).filter (fun m => codeMatch q m) =
        subs.filter (fun s => codeMatch q s) :=
      List.filter_eq_self.mpr (fun a ha => mem_codePass ha)
    have hnmnil : ((subs.filter (fun s => nameMatch q s)).filter
        (fun m => !((subs.filter (fun s => codeMatch q s)).contains m))).filter
          (fun m => codeMatch q m) = [] :=
      List.filter_eq_nil_iff.mpr (fun a ha => by simp [mem_namePass_not_code ha])
    rw [hcmfull, hnmnil, List.append_nil] at this
    exact this
  · have := hsub.filter (fun m => !(codeMatch q m))
    rw [List.filter_append] at this
    have hcmnil : (subs.filter (fun s => codeMatch q s)).filter (fun m => !(codeMatch q m)) = [] :=
      List.filter_eq_nil_iff.mpr (fun a ha => by simp [mem_codePass ha])
    have hnmfull : ((subs.filter (fun s => nameMatch q s)).filter
        (fun m => !((subs.filter (fun s => codeMatch q s)).contains m))).filter
          (fun m => !(codeMatch q m)) =
        (subs.filter (fun s => nameMatch q s)).filter
          (fun m => !((subs.filter (fun s => codeMatch q s)).contains m)) :=
      List.filter_eq_self.mpr (fun a ha => by simp [mem_namePass_not_code ha])
    rw [hcmnil, hnmfull, List.nil_append] at this
    exact this.trans (List.filter_sublist _)
  · intro x
    have hle : (searchSubjectByCode subs q).«matches».count x ≤
        (subs.filter (fun s => codeMatch q s)).count x +
          ((subs.filter (fun s => nameMatch q s)).filter
            (fun m => !((subs.filter (fun s => codeMatch q s)).contains m))).count x := by
      have := hsub.count_le x
      rw [List.count_append] at this
      exact this
    by_cases hmem : x ∈ subs.filter (fun s => codeMatch q s)
    · have hzero : ((subs.filter (fun s => nameMatch q s)).filter
          (fun m => !((subs.filter (fun s => codeMatch q s)).contains m))).count x = 0 := by
        apply List.count_eq_zero.mpr
        intro hx
        have h1 : List.elem x (subs.filter (fun s => codeMatch q s)) = true :=
          List.elem_iff.mpr hmem
        have h2 : (!(subs.filter (fun s => codeMatch q s)).contains x) = true :=
          (List.mem_filter.mp hx).2
        have h3 : (subs.filter (fun s => codeMatch q s)).contains x = true := h1
        rw [h3] at h2
        exact Bool.noConfusion h2
      calc (searchSubjectByCode subs q).«matches».count x
          ≤ _ := hle
        _ ≤ (subs.filter (fun s => codeMatch q s)).count x := by rw [hzero]; omega
        _ ≤ _ := le_max_left _ _
    · have hzero : (subs.filter (fun s => codeMatch q s)).count x = 0 :=
        List.count_eq_zero.mpr hmem
      calc (searchSubjectByCode subs q).«matches».count x
          ≤ _ := hle
        _ ≤ ((subs.filter (fun s => nameMatch q s)).filter
            (fun m => !((subs.filter (fun s => codeMatch q s)).contains m))).count x := by
          rw [hzero]; omega
        _ ≤ (subs.filter (fun s => nameMatch q s)).count x :=
          (List.filter_sublist _).count_le x
        _ ≤ _ := le_max_right _ _

/-- C4 witness: a subject list with two code matches, discharging the
ordering hypotheses at concrete indices. -/
theorem c4_limit_order_dedup_witness :
    codeMatch "a" "AA - X" = true := by
  have h := c4_limit_order_dedup ["AA - X", "AB - Y"] [] [] "a"
  exact h.2.2.2.1 0 1 "AA - X" "AB - Y" (by decide) (by decide) (by decide) (by decide)

/-- Reflexivity of the `isPrefixOf` test. -/
lemma isPrefixOf_rfl (p : List Char) : p.isPrefixOf p = true := by
  have h := isPrefixOf_append_self p []
  rwa [List.append_nil] at h

/-- A list prefix of an append is a prefix of the left part or extends it. -/
lemma isPrefixOf_append_cases {p a b : List Char} (h : p.isPrefixOf (a ++ b) = true) :
    p.isPrefixOf a = true ∨ ∃ p₂, p = a ++ p₂ ∧ p₂.isPrefixOf b = true := by
  induction a generalizing p with
  | nil => exact Or.inr ⟨p, rfl, by simpa using h⟩
  | cons c a ih =>
    cases p with
    | nil => exact Or.inl (by simp [List.isPrefixOf])
    | cons d p' =>
      rw [List.cons_append] at h
      simp only [List.isPrefixOf, Bool.and_eq_true, beq_iff_eq] at h
      obtain ⟨hd, hp⟩ := h
      rcases ih hp with h1 | ⟨p₂, hp₂, hpre⟩
      · exact Or.inl (by simp [List.isPrefixOf, hd, h1])
      · exact Or.inr ⟨p₂, by rw [hd, hp₂, List.cons_append], hpre⟩

/-- An occurrence of a pattern in an append is inside the left part, inside
the right part, or spans the boundary with a non-trivial split. -/
lemma hasSub_append_cases {p a b : List Char} (h : hasSub p (a ++ b) = true) :
    hasSub p a = true ∨ hasSub p b = true ∨
      ∃ p₁ p₂ a₁, p = p₁ ++ p₂ ∧ p₁ ≠ [] ∧ p₂ ≠ [] ∧ a = a₁ ++ p₁ ∧
        p₂.isPrefixOf b = true := by
  induction a with
  | nil => exact Or.inr (Or.inl (by simpa using h))
  | cons c a ih =>
    rw [List.cons_append] at h
    rw [hasSub, Bool.or_eq_true] at h
    rcases h with hpre | htail
    · have hpre' : p.isPrefixOf ((c :: a) ++ b) = true := by
        rw [List.cons_append]
        exact hpre
      rcases isPrefixOf_append_cases hpre' with h1 | ⟨p₂, hp₂, hp₂pre⟩
      · cases p with
        | nil => exact Or.inl (hasSub_nil _)
        | cons d p' => exact Or.inl (by rw [hasSub]; simp [h1])
      · by_cases hp₂nil : p₂ = []
        · subst hp₂nil
          rw [List.append_nil] at hp₂
          subst hp₂
          exact Or.inl (by rw [hasSub]; simp [isPrefixOf_rfl])
        · exact Or.inr (Or.inr ⟨c :: a, p₂, [], hp₂, by simp, hp₂nil, by simp, hp₂pre⟩)
    · rcases ih htail with h1 | h2 | ⟨p₁, p₂, a₁, h3, h4, h5, h6, h7⟩
      · cases p with
        | nil => exact Or.inl (hasSub_nil _)
        | cons d p' => exact Or.inl (by rw [hasSub]; simp [h1])
      · exact Or.inr (Or.inl h2)
      · exact Or.inr (Or.inr ⟨p₁, p₂, c :: a₁, h3, h4, h5, by rw [h6, List.cons_append], h7⟩)

/-- Absence of a pattern from an append, given absence on both sides and
the impossibility of a boundary-spanning occurrence. -/
lemma hasSub_append_eq_false {p : List Char} (a b : List Char)
    (ha : hasSub p a = false) (hb : hasSub p b = false)
    (hspan : ∀ p₁ p₂ a₁, p = p₁ ++ p₂ → p₁ ≠ [] → p₂ ≠ [] → a = a₁ ++ p₁ →
      p₂.isPrefixOf b = false) :
    hasSub p (a ++ b) = false := by
  cases hres : hasSub p (a ++ b)
  · rfl
  · exfalso
    rcases hasSub_append_cases hres with h1 | h2 | ⟨p₁, p₂, a₁, h3, h4, h5, h6, h7⟩
    · rw [h1] at ha
      exact Bool.noConfusion ha
    · rw [h2] at hb
      exact Bool.noConfusion hb
    · rw [hspan p₁ p₂ a₁ h3 h4 h5 h6] at h7
      exact Bool.noConfusion h7

/-- Characters of a prefix belong to the list. -/
lemma mem_of_isPrefixOf {p l : List Char} (h : p.isPrefixOf l = true) :
    ∀ c ∈ p, c ∈ l := by
  induction p generalizing l with
  | nil =>
    intro c hc
    exact absurd hc (by simp)
  | cons d p' ih =>
    cases l with
    | nil => exact absurd h (by simp [List.isPrefixOf])
    | cons e l' =>
      simp only [List.isPrefixOf, Bool.and_eq_true, beq_iff_eq] at h
      obtain ⟨hd, hp⟩ := h
      intro c hc
      rcases List.mem_cons.mp hc with rfl | hc'
      · rw [hd]
        exact List.mem_cons_self e l'
      · exact List.mem_cons_of_mem e (ih hp c hc')

/-- Characters of an occurring pattern belong to the list. -/
lemma mem_of_hasSub {p l : List Char} (h : hasSub p l = true) : ∀ c ∈ p, c ∈ l := by
  induction l with
  | nil =>
    cases p with
    | nil =>
      intro c hc
      exact absurd hc (by simp)
    | cons d p' => exact absurd h (by simp [hasSub, List.isEmpty])
  | cons e l' ih =>
    rw [hasSub, Bool.or_eq_true] at h
    rcases h with hpre | htail
    · exact mem_of_isPrefixOf hpre
    · intro c hc
      exact List.mem_cons_of_mem e (ih htail c hc)

/-- A non-empty prefix determines the head of the list. -/
lemma head_eq_of_isPrefixOf {p l : List Char} (hne : p ≠ [])
    (h : p.isPrefixOf l = true) : l.head? = p.head? := by
  cases p with
  | nil => exact absurd rfl hne
  | cons d p' =>
    cases l with
    | nil => exact absurd h (by simp [List.isPrefixOf])
    | cons e l' =>
      simp only [List.isPrefixOf, Bool.and_eq_true, beq_iff_eq] at h
      rw [h.1]
      rfl

set_option maxRecDepth 4096 in
/-- Quoted bytes never contain `&`, `[` or `]` (checked over all 256 byte
values). -/
lemma quoteByteNat_ok : ∀ b ∈ List.range 256,
    (quoteByteNat b).all (fun c => !(c == '&' || c == '[' || c == ']')) = true := by
  decide

/-- Every byte of a UTF-8 encoding of a valid code point is below 256. -/
lemma utf8Bytes_lt (n : Nat) (h : n < 1114112) : ∀ b ∈ utf8Bytes n, b < 256 := by
  unfold utf8Bytes
  split_ifs with h1 h2 h3
  · intro b hb
    simp only [List.mem_singleton] at hb
    omega
  · intro b hb
    have hd : n / 64 < 32 := Nat.div_lt_of_lt_mul (by omega)
    have hm : n % 64 < 64 := Nat.mod_lt _ (by omega)
    simp only [List.mem_cons, List.not_mem_nil, or_false] at hb
    rcases hb with rfl | rfl <;> omega
  · intro b hb
    have hd : n / 4096 < 16 := Nat.div_lt_of_lt_mul (by omega)
    have hm1 : (n / 64) % 64 < 64 := Nat.mod_lt _ (by omega)
    have hm2 : n % 64 < 64 := Nat.mod_lt _ (by omega)
    simp only [List.mem_cons, List.not_mem_nil, or_false] at hb
    rcases hb with rfl | rfl | rfl <;> omega
  · intro b hb
    have hd : n / 262144 < 5 := Nat.div_lt_of_lt_mul (by omega)
    have hm1 : (n / 4096) % 64 < 64 := Nat.mod_lt _ (by omega)
    have hm2 : (n / 64) % 64 < 64 := Nat.mod_lt _ (by omega)
    have hm3 : n % 64 < 64 := Nat.mod_lt _ (by omega)
    simp only [List.mem_cons, List.not_mem_nil, or_false] at hb
    rcases hb with rfl | rfl | rfl | rfl <;> omega

/-- Code points of characters are below `0x110000`. -/
lemma char_toNat_lt (c : Char) : c.toNat < 1114112 := by
  have h := c.valid
  simp only [UInt32.isValidChar, Nat.isValidChar] at h
  show c.val.toNat < 1114112
  omega

/-- Quoted bytes of valid code points avoid `&`, `[` and `]`. -/
lemma quoteByteNat_chars {b : Nat} (hb : b < 256) :
    ∀ ch ∈ quoteByteNat b, ch ≠ '&' ∧ ch ≠ '[' ∧ ch ≠ ']' := by
  have h := quoteByteNat_ok b (List.mem_range.mpr hb)
  intro ch hch
  have h2 := List.all_eq_true.mp h ch hch
  simp only [Bool.not_eq_true', Bool.or_eq_false_iff, beq_eq_false_iff_ne] at h2
  exact ⟨h2.1.1, h2.1.2, h2.2⟩

/-- The percent-encoded form of any string avoids `&`, `[` and `]`. -/
lemma pquote_chars (s : String) :
    ∀ ch ∈ (pquote s).data, ch ≠ '&' ∧ ch ≠ '[' ∧ ch ≠ ']' := by
  intro ch hch
  have hch' : ch ∈ (s.data.map
      (fun c => ((utf8Bytes c.toNat).map quoteByteNat).flatten)).flatten := hch
  rcases List.mem_flatten.mp hch' with ⟨block, hblock, hchb⟩
  rcases List.mem_map.mp hblock with ⟨c, hc, rfl⟩
  rcases List.mem_flatten.mp hchb with ⟨qb, hqb, hchq⟩
  rcases List.mem_map.mp hqb with ⟨b, hb, rfl⟩
  exact quoteByteNat_chars (utf8Bytes_lt c.toNat (char_toNat_lt c) b hb) ch hchq

/-- Decimal digit lists hold only digit characters. -/
lemma natDigits_chars (fuel : Nat) : ∀ n, ∀ ch ∈ natDigits fuel n,
    48 ≤ ch.toNat ∧ ch.toNat ≤ 57 := by
  induction fuel with
  | zero =>
    intro n ch hch
    exact absurd hch (by simp [natDigits])
  | succ f ih =>
    intro n ch hch
    rw [natDigits] at hch
    by_cases h10 : n < 10
    · rw [if_pos h10] at hch
      simp only [List.mem_singleton] at hch
      subst hch
      interval_cases n <;> decide
    · rw [if_neg h10] at hch
      rcases List.mem_append.mp hch with hl | hr
      · exact ih (n / 10) ch hl
      · simp only [List.mem_singleton] at hr
        subst hr
        have hm : n % 10 < 10 := Nat.mod_lt _ (by omega)
        generalize hg : n % 10 = m at hm ⊢
        interval_cases m <;> decide

/-- Dropping the length of the left factor of a split pattern yields the
right factor (specialization of `List.drop_left`). -/
lemma drop_split {p p₁ p₂ : List Char} (h : p = p₁ ++ p₂) :
    p.drop p₁.length = p₂ := by
  rw [h]
  exact List.drop_left p₁ p₂

/-- Length bounds for a non-trivial split of a pattern. -/
lemma split_len {p p₁ p₂ : List Char} (h : p = p₁ ++ p₂) (h1 : p₁ ≠ []) (h2 : p₂ ≠ []) :
    0 < p₁.length ∧ p₁.length < p.length := by
  constructor
  · exact List.length_pos.mpr h1
  · rw [h, List.length_append]
    have := List.length_pos.mpr h2
    omega

/-- Absence of a pattern from an append whose right side starts with `&`,
when the pattern has `&` at most in first position. -/
lemma hasSub_pre_amp {p : List Char} (a b : List Char)
    (ha : hasSub p a = false) (hb : hasSub p b = false)
    (hbhead : ∃ r, b = '&' :: r)
    (hamp : ∀ i, i < p.length → 0 < i → (p.drop i).head? ≠ some '&') :
    hasSub p (a ++ b) = false := by
  apply hasSub_append_eq_false a b ha hb
  intro p₁ p₂ a₁ hsplit hne1 hne2 hkeyq
  cases hres : p₂.isPrefixOf b
  · rfl
  · exfalso
    obtain ⟨r, hr⟩ := hbhead
    have hhead := head_eq_of_isPrefixOf hne2 hres
    rw [hr] at hhead
    obtain ⟨hpos, hlt⟩ := split_len hsplit hne1 hne2
    have hd := hamp p₁.length hlt hpos
    rw [drop_split hsplit] at hd
    exact hd hhead.symm

/-- Absence of a pattern containing a bracket from a `key ++ quote` chunk:
no occurrence fits in the key, percent-encoded text has no brackets, and
every boundary-spanning tail of the pattern would put a bracket into the
percent-encoded text. -/
lemma hasSub_key_pquote {p : List Char} (key : List Char) (c : String)
    (h1 : hasSub p key = false)
    (h2 : '[' ∈ p ∨ ']' ∈ p)
    (h3 : ∀ i, i < p.length → 0 < i → ('[' ∈ p.drop i ∨ ']' ∈ p.drop i)) :
    hasSub p (key ++ (pquote c).data) = false := by
  apply hasSub_append_eq_false key (pquote c).data h1
  · cases hres : hasSub p (pquote c).data
    · rfl
    · exfalso
      have hmem := mem_of_hasSub hres
      rcases h2 with hb | hb
      · exact (pquote_chars c '[' (hmem '[' hb)).2.1 rfl
      · exact (pquote_chars c ']' (hmem ']' hb)).2.2 rfl
  · intro p₁ p₂ a₁ hsplit hne1 hne2 hkey
    cases hres : p₂.isPrefixOf (pquote c).data
    · rfl
    · exfalso
      obtain ⟨hpos, hlt⟩ := split_len hsplit hne1 hne2
      have hbr := h3 p₁.length hlt hpos
      rw [drop_split hsplit] at hbr
      have hmem := mem_of_isPrefixOf hres
      rcases hbr with hb | hb
      · exact (pquote_chars c '[' (hmem '[' hb)).2.1 rfl
      · exact (pquote_chars c ']' (hmem ']' hb)).2.2 rfl

/-- A chunk sequence followed by an `&`-headed tail is itself `&`-headed. -/
lemma chunks_head {key tail : List Char} (k' t' : List Char)
    (hkey : key = '&' :: k') (htail : tail = '&' :: t') (items : List String) :
    ∃ r, (items.map (fun c => key ++ (pquote c).data)).flatten ++ tail = '&' :: r := by
  cases items with
  | nil => exact ⟨t', by simp [htail]⟩
  | cons c cs =>
    refine ⟨k' ++ ((pquote c).data ++
      (((cs.map (fun c => key ++ (pquote c).data)).flatten) ++ tail)), ?_⟩
    rw [List.map_cons, List.flatten_cons, hkey]
    simp [List.append_assoc]

/-- Absence of a bracket-containing, `&`-at-most-first pattern from a whole
chunk sequence followed by an `&`-headed tail. -/
lemma hasSub_chunks {p key tail : List Char} (items : List String)
    (hkey : ∃ k', key = '&' :: k') (htail : ∃ t', tail = '&' :: t')
    (hchunk : ∀ c : String, hasSub p (key ++ (pquote c).data) = false)
    (htl : hasSub p tail = false)
    (hamp : ∀ i, i < p.length → 0 < i → (p.drop i).head? ≠ some '&') :
    hasSub p ((items.map (fun c => key ++ (pquote c).data)).flatten ++ tail) = false := by
  induction items with
  | nil => simpa using htl
  | cons c cs ih =>
    rw [List.map_cons, List.flatten_cons, List.append_assoc]
    apply hasSub_pre_amp _ _ (hchunk c) ih
    · obtain ⟨k', hk⟩ := hkey
      obtain ⟨t', ht⟩ := htail
      exact chunks_head k' t' hk ht cs
    · exact hamp

/-- Unfolding the URL-building `foldl` into a chunk sequence. -/
lemma foldl_chunk_data (key : String) (items : List String) (init : String) :
    (items.foldl (fun acc c => acc ++ key ++ pquote c) init).data =
      init.data ++ (items.map (fun c => key.data ++ (pquote c).data)).flatten := by
  induction items generalizing init with
  | nil => simp
  | cons c cs ih =>
    rw [List.foldl_cons, ih, List.map_cons, List.flatten_cons]
    rw [strData_append, strData_append]
    simp [List.append_assoc]

/-- The URL tail after the facet fragments contains no brackets, hence no
bracket-containing pattern. -/
lemma hasSub_urlTail {p : List Char} (fd : Nat) (ft : String) (hp : '[' ∈ p) :
    hasSub p ("&future_days=" ++ natRepr fd ++ "&" ++ feedTypeParam ft).data = false := by
  cases hres : hasSub p ("&future_days=" ++ natRepr fd ++ "&" ++ feedTypeParam ft).data
  · rfl
  · exfalso
    have hmem : '[' ∈ ("&future_days=" ++ natRepr fd ++ "&" ++ feedTypeParam ft).data :=
      mem_of_hasSub hres '[' hp
    rw [strData_append, strData_append, strData_append] at hmem
    rcases List.mem_append.mp hmem with hmem1 | hmem4
    · rcases List.mem_append.mp hmem1 with hmem2 | hmem3
      · rcases List.mem_append.mp hmem2 with hlit | hdig
        · exact absurd hlit (by decide)
        · exact absurd (natDigits_chars (fd + 1) fd '[' hdig) (by decide)
      · exact absurd hmem3 (by decide)
    · by_cases hft : ft ∈ ["rss", "js", "ics", "csv"]
      · rw [feedTypeParam, if_pos hft] at hmem4
        exact absurd hmem4 (by decide)
      · rw [feedTypeParam, if_neg hft] at hmem4
        exact absurd hmem4 (by decide)

/-- The URL tail begins with `&`. -/
lemma urlTail_head (fd : Nat) (ft : String) :
    ∃ t', ("&future_days=" ++ natRepr fd ++ "&" ++ feedTypeParam ft).data = '&' :: t' := by
  refine ⟨"future_days=".data ++ ((natRepr fd).data ++ ("&".data ++ (feedTypeParam ft).data)), ?_⟩
  rw [strData_append, strData_append, strData_append]
  have h0 : "&future_days=".data = '&' :: "future_days=".data := rfl
  rw [h0]
  simp [List.append_assoc]

/-- With the `"All"` sentinel in the group list, both flag branches emit an
empty group fragment. -/
lemma groupUrl_all {groups : List String} (h : "All" ∈ groups) (fmg : Bool) :
    groupUrl fmg groups = some "" := by
  cases fmg <;> simp [groupUrl, h]

/-- With the `"All"` sentinel in the category list, both flag branches emit
an empty category fragment. -/
lemma categoryUrl_all {cats : List String} (h : "All" ∈ cats) (fmc : Bool) :
    categoryUrl fmc cats = "" := by
  cases fmc <;> simp [categoryUrl, h]

/-- Reduction of pattern absence in the full URL to absence in the fixed
prefix and in the facet-plus-tail remainder. -/
lemma hasSub_url_shape {p : List Char} (ft : String) (fd : Nat) (cat gu : String)
    (hpre : hasSub p ("https://calendar.duke.edu/events/index." ++ ft ++ "?").data = false)
    (hamp : ∀ i, i < p.length → 0 < i → (p.drop i).head? ≠ some '&')
    (hrest : hasSub p (cat.data ++ (gu.data ++
      ("&future_days=" ++ natRepr fd ++ "&" ++ feedTypeParam ft).data)) = false)
    (hresthead : ∃ r, cat.data ++ (gu.data ++
      ("&future_days=" ++ natRepr fd ++ "&" ++ feedTypeParam ft).data) = '&' :: r) :
    hasSub p ("https://calendar.duke.edu/events/index." ++ ft ++ "?" ++ cat ++ gu ++
      "&future_days=" ++ natRepr fd ++ "&" ++ feedTypeParam ft).data = false := by
  have hshape : ("https://calendar.duke.edu/events/index." ++ ft ++ "?" ++ cat ++ gu ++
      "&future_days=" ++ natRepr fd ++ "&" ++ feedTypeParam ft).data =
      ("https://calendar.duke.edu/events/index." ++ ft ++ "?").data ++
        (cat.data ++ (gu.data ++
          ("&future_days=" ++ natRepr fd ++ "&" ++ feedTypeParam ft).data)) := by
    simp [strData_append, List.append_assoc]
  rw [hshape]
  exact hasSub_pre_amp _ _ hpre hrest hresthead hamp

/-- Absence of a bracket-containing pattern from a facet fragment rendered
by the URL-building fold, together with the fragment-plus-tail being
`&`-headed. -/
lemma hasSub_fold_part {p : List Char} (key : String) (items : List String)
    (fd : Nat) (ft : String) (gu : String)
    (hdata : gu.data = (items.map (fun c => key.data ++ (pquote c).data)).flatten)
    (hkeyhead : ∃ k', key.data = '&' :: k')
    (hchunk : ∀ c, hasSub p (key.data ++ (pquote c).data) = false)
    (hp : '[' ∈ p)
    (hamp : ∀ i, i < p.length → 0 < i → (p.drop i).head? ≠ some '&') :
    hasSub p (gu.data ++
      ("&future_days=" ++ natRepr fd ++ "&" ++ feedTypeParam ft).data) = false ∧
    ∃ r, gu.data ++ ("&future_days=" ++ natRepr fd ++ "&" ++ feedTypeParam ft).data =
      '&' :: r := by
  constructor
  · rw [hdata]
    exact hasSub_chunks items hkeyhead (urlTail_head fd ft) hchunk
      (hasSub_urlTail fd ft hp) hamp
  · rw [hdata]
    obtain ⟨k', hk⟩ := hkeyhead
    obtain ⟨t', ht⟩ := urlTail_head fd ft
    exact chunks_head k' t' hk ht items

/-- Specialization of pattern absence in the fixed URL prefix to the six
documented feed types. -/
lemma hasSub_pre_cases (p : List Char) (ft : String)
    (hft : ft ∈ ["rss", "js", "ics", "csv", "json", "jsonp"])
    (hall : ∀ f ∈ ["rss", "js", "ics", "csv", "json", "jsonp"],
      hasSub p ("https://calendar.duke.edu/events/index." ++ f ++ "?").data = false) :
    hasSub p ("https://calendar.duke.edu/events/index." ++ ft ++ "?").data = false :=
  hall ft hft

/-- Absence of a group-filter pattern from the URL built with an empty
group fragment, whatever the category flag and list contribute. -/
lemma hasSub_groupsAll_url {p : List Char} (ft : String) (fd : Nat)
    (cats : List String) (fmc : Bool)
    (hp : '[' ∈ p)
    (hamp : ∀ i, i < p.length → 0 < i → (p.drop i).head? ≠ some '&')
    (h3 : ∀ i, i < p.length → 0 < i → ('[' ∈ p.drop i ∨ ']' ∈ p.drop i))
    (hpre : hasSub p ("https://calendar.duke.edu/events/index." ++ ft ++ "?").data = false)
    (hcfu : hasSub p "&cfu[]=".data = false)
    (hcf : hasSub p "&cf[]=".data = false) :
    hasSub p ("https://calendar.duke.edu/events/index." ++ ft ++ "?" ++
      categoryUrl fmc cats ++ "" ++ "&future_days=" ++ natRepr fd ++ "&" ++
      feedTypeParam ft).data = false := by
  have hchunkcfu : ∀ c, hasSub p ("&cfu[]=".data ++ (pquote c).data) = false :=
    fun c => hasSub_key_pquote _ c hcfu (Or.inl hp) h3
  have hchunkcf : ∀ c, hasSub p ("&cf[]=".data ++ (pquote c).data) = false :=
    fun c => hasSub_key_pquote _ c hcf (Or.inl hp) h3
  have hpair : hasSub p ((categoryUrl fmc cats).data ++
      ("&future_days=" ++ natRepr fd ++ "&" ++ feedTypeParam ft).data) = false ∧
      ∃ r, (categoryUrl fmc cats).data ++
        ("&future_days=" ++ natRepr fd ++ "&" ++ feedTypeParam ft).data = '&' :: r := by
    by_cases hAllc : "All" ∈ cats
    · rw [categoryUrl_all hAllc]
      exact hasSub_fold_part "&cfu[]=" [] fd ft "" rfl ⟨"cfu[]=".data, rfl⟩ hchunkcfu hp hamp
    · cases fmc with
      | true =>
        have hcat : categoryUrl true cats =
            cats.foldl (fun acc c => acc ++ "&cfu[]=" ++ pquote c) "" := by
          simp [categoryUrl, hAllc]
        rw [hcat]
        refine hasSub_fold_part "&cfu[]=" cats fd ft _ ?_ ⟨"cfu[]=".data, rfl⟩
          hchunkcfu hp hamp
        rw [foldl_chunk_data]
        rfl
      | false =>
        have hcat : categoryUrl false cats =
            cats.foldl (fun acc c => acc ++ "&cf[]=" ++ pquote c) "" := by
          simp [categoryUrl, hAllc]
        rw [hcat]
        refine hasSub_fold_part "&cf[]=" cats fd ft _ ?_ ⟨"cf[]=".data, rfl⟩
          hchunkcf hp hamp
        rw [foldl_chunk_data]
        rfl
  exact hasSub_url_shape ft fd (categoryUrl fmc cats) "" hpre hamp hpair.1 hpair.2

/-- Absence of a category-filter pattern from the URL built with an empty
category fragment, whatever the group flag and list contribute. -/
lemma hasSub_catsAll_url {p : List Char} (ft : String) (fd : Nat)
    (groups : List String) (fmg : Bool) (gu : String)
    (hgu : groupUrl fmg groups = some gu)
    (hp : '[' ∈ p)
    (hamp : ∀ i, i < p.length → 0 < i → (p.drop i).head? ≠ some '&')
    (h3 : ∀ i, i < p.length → 0 < i → ('[' ∈ p.drop i ∨ ']' ∈ p.drop i))
    (hpre : hasSub p ("https://calendar.duke.edu/events/index." ++ ft ++ "?").data = false)
    (hgfu : hasSub p "&gfu[]=".data = false)
    (hgf : hasSub p "&gf[]=".data = false) :
    hasSub p ("https://calendar.duke.edu/events/index." ++ ft ++ "?" ++ "" ++ gu ++
      "&future_days=" ++ natRepr fd ++ "&" ++ feedTypeParam ft).data = false := by
  have hchunkgfu : ∀ c, hasSub p ("&gfu[]=".data ++ (pquote c).data) = false :=
    fun c => hasSub_key_pquote _ c hgfu (Or.inl hp) h3
  have hchunkgf : ∀ c, hasSub p ("&gf[]=".data ++ (pquote c).data) = false :=
    fun c => hasSub_key_pquote _ c hgf (Or.inl hp) h3
  have hpair : hasSub p (gu.data ++
      ("&future_days=" ++ natRepr fd ++ "&" ++ feedTypeParam ft).data) = false ∧
      ∃ r, gu.data ++
        ("&future_days=" ++ natRepr fd ++ "&" ++ feedTypeParam ft).data = '&' :: r := by
    cases fmg with
    | true =>
      by_cases hAllg : "All" ∈ groups
      · have h := groupUrl_all hAllg true
        rw [hgu] at h
        have hgu0 : gu = "" := Option.some.inj h
        rw [hgu0]
        exact hasSub_fold_part "&gfu[]=" [] fd ft "" rfl ⟨"gfu[]=".data, rfl⟩
          hchunkgfu hp hamp
      · have hg : gu = groups.foldl (fun acc g => acc ++ "&gfu[]=" ++ pquote g) "" := by
          simp [groupUrl, hAllg] at hgu
          exact hgu.symm
        rw [hg]
        refine hasSub_fold_part "&gfu[]=" groups fd ft _ ?_ ⟨"gfu[]=".data, rfl⟩
          hchunkgfu hp hamp
        rw [foldl_chunk_data]
        rfl
    | false =>
      by_cases hAllg : "All" ∈ groups
      · have h := groupUrl_all hAllg false
        rw [hgu] at h
        have hgu0 : gu = "" := Option.some.inj h
        rw [hgu0]
        exact hasSub_fold_part "&gf[]=" [] fd ft "" rfl ⟨"gf[]=".data, rfl⟩
          hchunkgf hp hamp
      · cases groups with
        | nil => simp [groupUrl, hAllg] at hgu
        | cons g rest =>
          have hg : gu = rest.foldl (fun acc g => acc ++ "&gf[]=" ++ pquote g)
              ("&gf[]=" ++ pquote g) := by
            simp [groupUrl, hAllg] at hgu
            exact hgu.symm
          rw [hg]
          refine hasSub_fold_part "&gf[]=" (g :: rest) fd ft _ ?_ ⟨"gf[]=".data, rfl⟩
            hchunkgf hp hamp
          rw [foldl_chunk_data, List.map_cons, List.flatten_cons, strData_append]
  exact hasSub_url_shape ft fd "" gu hpre hamp hpair.1 hpair.2

/-- C5: for any call whose URL construction succeeds, a group list holding
the sentinel `"All"` makes the URL free of any `gf[]` or `gfu[]` occurrence
(hence of those parameters) whatever `filter_method_group` is; and
symmetrically a category list holding `"All"` makes the URL free of `cf[]`
and `cfu[]`, whatever `filter_method_category` is.  The feed type ranges
over the six documented values. -/
theorem c5_all_sentinel_no_facet_params (ft : String) (fd : Nat)
    (groups cats : List String) (fmg fmc : Bool) (url : String)
    (hft : ft ∈ ["rss", "js", "ics", "csv", "json", "jsonp"])
    (hurl : buildEventUrl ft fd groups cats fmg fmc = some url) :
    ("All" ∈ groups →
      hasSub "gf[]".data url.data = false ∧ hasSub "gfu[]".data url.data = false) ∧
    ("All" ∈ cats →
      hasSub "cf[]".data url.data = false ∧ hasSub "cfu[]".data url.data = false) := by
  cases hgu : groupUrl fmg groups with
  | none =>
    rw [buildEventUrl, hgu] at hurl
    exact absurd hurl (by simp)
  | some gu =>
    rw [buildEventUrl, hgu] at hurl
    simp only [Option.map_some'] at hurl
    have hu : url = "https://calendar.duke.edu/events/index." ++ ft ++ "?" ++
        categoryUrl fmc cats ++ gu ++ "&future_days=" ++ natRepr fd ++ "&" ++
        feedTypeParam ft := (Option.some.inj hurl).symm
    constructor
    · intro hAllg
      have h := groupUrl_all hAllg fmg
      rw [hgu] at h
      have hgu0 : gu = "" := Option.some.inj h
      rw [hu, hgu0]
      constructor
      · exact hasSub_groupsAll_url ft fd cats fmc (by decide) (by decide) (by decide)
          (hasSub_pre_cases _ ft hft (by decide)) (by decide) (by decide)
      · exact hasSub_groupsAll_url ft fd cats fmc (by decide) (by decide) (by decide)
          (hasSub_pre_cases _ ft hft (by decide)) (by decide) (by decide)
    · intro hAllc
      rw [hu, categoryUrl_all hAllc]
      constructor
      · exact hasSub_catsAll_url ft fd groups fmg gu hgu (by decide) (by decide)
          (by decide) (hasSub_pre_cases _ ft hft (by decide)) (by decide) (by decide)
      · exact hasSub_catsAll_url ft fd groups fmg gu hgu (by decide) (by decide)
          (by decide) (hasSub_pre_cases _ ft hft (by decide)) (by decide) (by decide)

/-- C5 witness: with both sentinel lists at the defaults, the concrete URL
contains none of the four facet parameters. -/
theorem c5_all_sentinel_no_facet_params_witness :
    hasSub "gf[]".data
      "https://calendar.duke.edu/events/index.json?&future_days=45&feed_type=simple".data =
      false ∧
    hasSub "gfu[]".data
      "https://calendar.duke.edu/events/index.json?&future_days=45&feed_type=simple".data =
      false ∧
    hasSub "cf[]".data
      "https://calendar.duke.edu/events/index.json?&future_days=45&feed_type=simple".data =
      false ∧
    hasSub "cfu[]".data
      "https://calendar.duke.edu/events/index.json?&future_days=45&feed_type=simple".data =
      false := by
  have h := c5_all_sentinel_no_facet_params "json" 45 ["All"] ["All"] true false
    "https://calendar.duke.edu/events/index.json?&future_days=45&feed_type=simple"
    (by decide) (by decide)
  exact ⟨(h.1 (by decide)).1, (h.1 (by decide)).2, (h.2 (by decide)).1, (h.2 (by decide)).2⟩
